import Mathlib

/-!
Verification of the StockHarvester backtest engine (src/analyzer.py, src/api.py)
against its specification.

Embedding choices:
* Dates (Python datetime at day granularity) are integer day numbers; the ambient
  clock value datetime.datetime.today() is modelled as an explicit integer input
  named now.
* Prices (Python floats) are rationals; the decimal threshold literals 0.15 and
  0.08 are embedded as the exact rationals 15/100 and 8/100.
* The historical_quotes dict is modelled as its key-sorted association list, so
  iterating the list in order models iterating sorted(historical_quotes).
* Fallible steps (KeyError, IndexError, worker-pool ValueError, per-future
  exceptions re-raised by future.result) are modelled with Except / Option.
-/

namespace StockHarvester

/-- Analyzer.MIN_HOLD_DAYS, src/analyzer.py line 10. -/
def MIN_HOLD_DAYS : Nat := 7

/-- Analyzer.GAIN_PERCENT_TARGET, line 11. -/
def GAIN_PERCENT_TARGET : ℚ := 15 / 100

/-- Analyzer.LOSS_PERCENT_FLOOR, line 12. -/
def LOSS_PERCENT_FLOOR : ℚ := 8 / 100

/-- Analyzer.MAX_WORKERS, line 13. -/
def MAX_WORKERS : Nat := 4

/-- The historical_quotes mapping: date (integer day number) to close price. -/
abbrev Quotes := List (Int × ℚ)

/-- Strictly ascending adjacent keys, checked executably. -/
def sortedDates : Quotes → Bool
  | [] => true
  | [_] => true
  | a :: b :: rest => decide (a.1 < b.1) && sortedDates (b :: rest)

/-- The shape invariant of the modelled dict: strictly ascending, hence unique, keys. -/
def SortedQ (q : Quotes) : Prop := sortedDates q = true

/-- Python dict lookup historical_quotes[date]; none models a KeyError. -/
def qlookup (d : Int) : Quotes → Option ℚ
  | [] => none
  | (d0, c) :: rest => if d0 = d then some c else qlookup d rest

/-- The dict returned by Analyzer._get_results, lines 156-161 and 163-168. -/
structure TradeResults where
  gl : ℚ
  days : Nat
  buyPrice : ℚ
  sellPrice : ℚ
deriving DecidableEq

/-- The scanning loop of Analyzer._get_results, lines 139-162: day counter,
price_diff and curr_price are threaded exactly as the Python locals are; dates
before the buy date are skipped after curr_price and price_diff were updated;
the exit test fires only once day has reached MIN_HOLD_DAYS, and day is
incremented after the test.  The Python expression (start_price or 1) is the
conditional denominator: 1 exactly when start_price equals 0. -/
def getResultsLoop (buyDate : Int) (startPrice floorPrice targetPrice : ℚ) :
    Quotes → Nat → ℚ → ℚ → TradeResults
  | [], day, priceDiff, currPrice =>
      ⟨priceDiff / (if startPrice = 0 then 1 else startPrice), day, startPrice, currPrice⟩
  | (date, close) :: rest, day, _, _ =>
      if date < buyDate then
        getResultsLoop buyDate startPrice floorPrice targetPrice rest day
          (close - startPrice) close
      else if MIN_HOLD_DAYS ≤ day ∧ (close ≤ floorPrice ∨ targetPrice ≤ close) then
        ⟨(close - startPrice) / (if startPrice = 0 then 1 else startPrice),
          day, startPrice, close⟩
      else
        getResultsLoop buyDate startPrice floorPrice targetPrice rest (day + 1)
          (close - startPrice) close

/-- Analyzer._get_results, lines 137-168.  The initial lookup
historical_quotes[buy_date] raises a KeyError when the buy date is absent,
modelled as none; otherwise the scan runs with day = 0, price_diff = 0,
curr_price = 0 as in lines 139-141. -/
def getResults (buyDate : Int) (q : Quotes) : Option TradeResults :=
  match qlookup buyDate q with
  | none => none
  | some startPrice =>
      some (getResultsLoop buyDate startPrice
        (startPrice * (1 - LOSS_PERCENT_FLOOR))
        (startPrice * (1 + GAIN_PERCENT_TARGET)) q 0 0 0)

/-- One entry of results_by_date, lines 65-68 and 71-74: the string "w" or "l"
and the number of hold days. -/
structure ResultRecord where
  result : String
  numHoldDays : Nat
deriving DecidableEq

/-- The mutable state of the _analyze tally loop, lines 46-48. -/
structure TallyState where
  totalWins : Nat
  totalLosses : Nat
  resultsByDate : List (Int × ResultRecord)
deriving DecidableEq

/-- Exceptions escaping from the tally loop. -/
inductive AnalyzeErr where
  | keyError
deriving DecidableEq

/-- The date loop of Analyzer._analyze, lines 50-74, folded over the sorted
date list (the enumerate index day of line 50 is never used in the body).
A date is skipped when it is before start_date (line 51) or when
date + MIN_HOLD_DAYS days is at or past the clock value now (line 55, where the
code reads datetime.datetime.today()).  Otherwise _get_results runs and the
truthiness of results["g/l"] selects the branch (line 61-63): any nonzero
gain-loss fraction takes the win branch and a zero fraction the loss branch.
The skip test of line 51, (start_date and date < start_date), is named
startSkip here. -/
def startSkip (startDate : Option Int) (date : Int) : Bool :=
  match startDate with
  | some sd => decide (date < sd)
  | none => false

/-- The date loop of Analyzer._analyze, lines 50-74; see startSkip above. -/
def analyzeLoop (q : Quotes) (startDate : Option Int) (now : Int) :
    Quotes → TallyState → Except AnalyzeErr TallyState
  | [], st => .ok st
  | (date, _) :: rest, st =>
      if startSkip startDate date then
        analyzeLoop q startDate now rest st
      else if now ≤ date + (MIN_HOLD_DAYS : Int) then
        analyzeLoop q startDate now rest st
      else
        match getResults date q with
        | none => .error .keyError
        | some r =>
            if r.gl ≠ 0 then
              analyzeLoop q startDate now rest
                ⟨st.totalWins + 1, st.totalLosses,
                  st.resultsByDate ++ [(date, ⟨"w", r.days⟩)]⟩
            else
              analyzeLoop q startDate now rest
                ⟨st.totalWins, st.totalLosses + 1,
                  st.resultsByDate ++ [(date, ⟨"l", r.days⟩)]⟩

/-- The tallies computed by Analyzer._analyze after its date loop, lines 46-74,
starting from total_wins = 0, total_losses = 0, results_by_date = {}. -/
def analyzeTallies (q : Quotes) (startDate : Option Int) (now : Int) :
    Except AnalyzeErr TallyState :=
  analyzeLoop q startDate now q ⟨0, 0, []⟩

/-- Per-period statistics from the specification, section 3.  The code under
src/ never constructs this record; the type is needed to state what the spec
claims the analysis returns. -/
structure PeriodStats where
  winRate : ℚ
deriving DecidableEq

/-- The per-symbol output record from the specification, section 3.  The code
under src/ never constructs this record either. -/
structure SymbolAnalysis where
  symbol : String
  total_wins : Nat
  total_losses : Nat
  periods : List PeriodStats
deriving DecidableEq

/-- The value returned by Analyzer._analyze, lines 28-134: the body computes
the tallies, runs the empty loop of lines 76-77, and then falls off the end
(the return statement of lines 124-134 is commented out), so Python returns
None whenever no exception escaped; an escaping exception is propagated. -/
def analyzeSym (q : Quotes) (startDate : Option Int) (now : Int) :
    Except AnalyzeErr (Option SymbolAnalysis) :=
  match analyzeTallies q startDate now with
  | .error e => .error e
  | .ok _ => .ok none

/-- Exceptions escaping from Analyzer.analyze, lines 15-26. -/
inductive BatchErr where
  /-- ThreadPoolExecutor raises ValueError when max_workers is not positive. -/
  | invalidMaxWorkers
  /-- future.result() re-raises the exception of the submitted call: a fetch
  failure from get_historical_quotes or a KeyError from _analyze. -/
  | raised (msg : String)
  /-- analysis["symbol"] on line 25 raises TypeError because analysis is None. -/
  | typeError
deriving DecidableEq

/-- One submitted future: fetch the series (the fetch argument models
AlphaVantageStockAPI.get_historical_quotes, which raises on failure), then run
the rest of _analyze on it. -/
def futureResult (fetch : String → Except String Quotes) (startDate : Option Int)
    (now : Int) (sym : String) : Except BatchErr (Option SymbolAnalysis) :=
  match fetch sym with
  | .error e => .error (.raised e)
  | .ok q =>
      match analyzeSym q startDate now with
      | .error _ => .error (.raised "KeyError")
      | .ok a => .ok a

/-- The fan-in loop of Analyzer.analyze, lines 23-25, over one linearization of
as_completed (submission order; every linearization errors at its first future,
so whether a mapping is returned does not depend on the order).  For each
future, future.result() re-raises any exception; otherwise the returned value
is subscripted as analysis["symbol"], which raises TypeError when the value is
None. -/
def batchCollect (fetch : String → Except String Quotes) (startDate : Option Int)
    (now : Int) :
    List String → List (String × SymbolAnalysis) →
      Except BatchErr (List (String × SymbolAnalysis))
  | [], acc => .ok acc
  | sym :: rest, acc =>
      match futureResult fetch startDate now sym with
      | .error e => .error e
      | .ok none => .error .typeError
      | .ok (some a) => batchCollect fetch startDate now rest (acc ++ [(a.symbol, a)])

/-- Analyzer.analyze, lines 15-26.  The pool is built with
max_workers = min(len(symbols), MAX_WORKERS), line 19, and ThreadPoolExecutor
rejects a non-positive max_workers with a ValueError. -/
def analyzeBatch (symbols : List String) (fetch : String → Except String Quotes)
    (startDate : Option Int) (now : Int) :
    Except BatchErr (List (String × SymbolAnalysis)) :=
  if min symbols.length MAX_WORKERS = 0 then .error .invalidMaxWorkers
  else batchCollect fetch startDate now symbols []

/-- Membership of a char list as a contiguous segment of another, used to model
the Python substring test "time series" in key.lower(). -/
def charsContain (needle hay : List Char) : Bool :=
  hay.tails.any (fun t => needle.isPrefixOf t)

/-- The Python test: needle in hay, on strings. -/
def strContains (needle hay : String) : Bool :=
  charsContain needle.data hay.data

/-- Exceptions raised by AlphaVantageStockAPI._get_quotes_by_period. -/
inductive ApiErr where
  /-- Line 48: the response text is empty. -/
  | emptyResponse
  /-- Line 54: more than one key matches "time series". -/
  | ambiguousKey
  /-- Line 55: possible_keys[0] on an empty list raises IndexError. -/
  | indexError
deriving DecidableEq

/-- Line 52: the keys of the parsed JSON object whose lowercase form contains
"time series". -/
def possibleKeys (keys : List String) : List String :=
  keys.filter (fun k => strContains "time series" k.toLower)

/-- The key-selection path of AlphaVantageStockAPI._get_quotes_by_period,
src/api.py lines 45-55, on a response modelled by its emptiness flag and the
key list of its parsed JSON object: an empty response raises (line 48), more
than one matching key raises the descriptive error (lines 53-54), and
otherwise possible_keys[0] is taken unguarded (line 55), which raises an
IndexError when no key matched. -/
def getQuotesKeySelection (responseEmpty : Bool) (keys : List String) :
    Except ApiErr String :=
  if responseEmpty then .error .emptyResponse
  else
    let pk := possibleKeys keys
    if 1 < pk.length then .error .ambiguousKey
    else
      match pk with
      | [] => .error .indexError
      | k :: _ => .ok k

/-- Close price of the chronologically last entry of the series (0 for an empty
series, which never arises when a buy date is present). -/
def lastClose (q : Quotes) : ℚ :=
  match q.getLast? with
  | some e => e.2
  | none => 0

/-- The sub-series of quotes at or after the buy date. -/
def postSeries (buyDate : Int) (q : Quotes) : Quotes :=
  q.filter (fun e => decide (buyDate ≤ e.1))

/-- Spec-side definition for the refinement comparison of the simulator walk,
following the words of specification section 4.1: walk the days at or after
the buy date with an elapsed-day counter starting at 0 on the buy date, and
stop at the first day whose counter has reached the minimum hold and whose
close price is at or below the floor price or at or above the target price,
yielding that counter value and close price. -/
def specFirstExit (floorPrice targetPrice : ℚ) : Nat → Quotes → Option (Nat × ℚ)
  | _, [] => none
  | day, (_, close) :: rest =>
      if MIN_HOLD_DAYS ≤ day ∧ (close ≤ floorPrice ∨ targetPrice ≤ close) then
        some (day, close)
      else specFirstExit floorPrice targetPrice (day + 1) rest

/-- Spec-side definition of the eligibility filter, following the words of the
claim: a buy date is eligible unless it is before startDate (when supplied) or
buyDate + minHoldDays is at or past now. -/
def specEligible (startDate : Option Int) (now : Int) (d : Int) : Bool :=
  (match startDate with | some s => decide (s ≤ d) | none => true) &&
    decide (d + (MIN_HOLD_DAYS : Int) < now)

/-- A series in which the price falls from 100 to 90 on day 8 (the loss
scenario of the specification). -/
def cqFall : Quotes :=
  [(0, 100), (1, 100), (2, 100), (3, 100), (4, 100), (5, 100), (6, 100),
    (7, 100), (8, 90)]

/-- A ten-day constant-price series (the zero-gain scenario of the
specification). -/
def cqConst : Quotes :=
  [(0, 100), (1, 100), (2, 100), (3, 100), (4, 100), (5, 100), (6, 100),
    (7, 100), (8, 100), (9, 100)]

/-- A series in which the price rises from 100 to 116 on day 8 (the win
scenario of the specification). -/
def cqRise : Quotes :=
  [(0, 100), (1, 100), (2, 100), (3, 100), (4, 100), (5, 100), (6, 100),
    (7, 100), (8, 116)]

/-- A series whose buy-date close price is zero, for the defensive-denominator
edge case. -/
def cqZero : Quotes := [(0, 0), (1, 5)]

/-- A concrete fetch in which exactly the symbol B fails, with an HTTP-style
reason, and every other symbol succeeds. -/
def cfetch : String → Except String Quotes :=
  fun s => if s = "B" then .error "HTTP 500" else .ok cqConst

/-! Helper lemmas about the embedded operations. -/

/-- A key present in the association list is found by the dict lookup. -/
lemma qlookup_of_mem {d : Int} {c : ℚ} :
    ∀ {q : Quotes}, (d, c) ∈ q → ∃ v, qlookup d q = some v := by
  intro q h
  induction q with
  | nil => cases h
  | cons e rest ih =>
    obtain ⟨d0, c0⟩ := e
    by_cases hd : d0 = d
    · exact ⟨c0, by simp [qlookup, hd]⟩
    · rcases List.mem_cons.mp h with h1 | h2
      · injection h1 with hd1 _
        exact absurd hd1.symm hd
      · obtain ⟨v, hv⟩ := ih h2
        exact ⟨v, by simp [qlookup, hd, hv]⟩

/-- A successful lookup forces a nonempty series. -/
lemma ne_nil_of_qlookup {d : Int} {q : Quotes} {P : ℚ}
    (h : qlookup d q = some P) : q ≠ [] := by
  intro hq
  subst hq
  simp [qlookup] at h

/-- The last element of a nonempty list exists. -/
lemma getLast?_cons_isSome :
    ∀ (e : Int × ℚ) (l : List (Int × ℚ)), ∃ x, (e :: l).getLast? = some x := by
  intro e l
  induction l generalizing e with
  | nil => exact ⟨e, rfl⟩
  | cons f r ih =>
    obtain ⟨x, hx⟩ := ih f
    exact ⟨x, by rw [List.getLast?_cons_cons]; exact hx⟩

/-- The scan result always records the buy price as its buyPrice field. -/
lemma getResultsLoop_buyPrice (bd : Int) (P fl tg : ℚ) :
    ∀ (l : Quotes) (day : Nat) (pd cp : ℚ),
      (getResultsLoop bd P fl tg l day pd cp).buyPrice = P := by
  intro l
  induction l with
  | nil => intro day pd cp; rfl
  | cons e rest ih =>
    intro day pd cp
    obtain ⟨dt, c⟩ := e
    simp only [getResultsLoop]
    by_cases h1 : dt < bd
    · rw [if_pos h1]; exact ih ..
    · rw [if_neg h1]
      by_cases h2 : MIN_HOLD_DAYS ≤ day ∧ (c ≤ fl ∨ tg ≤ c)
      · rw [if_pos h2]
      · rw [if_neg h2]; exact ih ..

/-- On a nonempty list, the gain-loss field of the scan result is the returned
sell price minus the buy price, divided by the defensive denominator. -/
lemma getResultsLoop_gl (bd : Int) (P fl tg : ℚ) :
    ∀ (l : Quotes) (day : Nat) (pd cp : ℚ), l ≠ [] →
      (getResultsLoop bd P fl tg l day pd cp).gl =
        ((getResultsLoop bd P fl tg l day pd cp).sellPrice - P) /
          (if P = 0 then 1 else P) := by
  intro l
  induction l with
  | nil => intro day pd cp h; exact absurd rfl h
  | cons e rest ih =>
    intro day pd cp _
    obtain ⟨dt, c⟩ := e
    simp only [getResultsLoop]
    by_cases h1 : dt < bd
    · rw [if_pos h1]
      cases rest with
      | nil => simp [getResultsLoop]
      | cons e2 r2 => exact ih _ _ _ (by simp)
    · rw [if_neg h1]
      by_cases h2 : MIN_HOLD_DAYS ≤ day ∧ (c ≤ fl ∨ tg ≤ c)
      · rw [if_pos h2]
      · rw [if_neg h2]
        cases rest with
        | nil => simp [getResultsLoop]
        | cons e2 r2 => exact ih _ _ _ (by simp)

/-- Day counting of the scan: either the scan stopped at an exit day, whose
counter had reached the minimum hold, or the series ran out, the counter
equals its start plus the number of days at or after the buy date, and the
final sell price is the close of the last visited entry. -/
lemma getResultsLoop_days (bd : Int) (P fl tg : ℚ) :
    ∀ (l : Quotes) (day : Nat) (pd cp : ℚ),
      MIN_HOLD_DAYS ≤ (getResultsLoop bd P fl tg l day pd cp).days ∨
      ((getResultsLoop bd P fl tg l day pd cp).days
          = day + (l.filter (fun e => decide (bd ≤ e.1))).length ∧
        (getResultsLoop bd P fl tg l day pd cp).sellPrice
          = (match l.getLast? with | some e => e.2 | none => cp)) := by
  intro l
  induction l with
  | nil =>
    intro day pd cp
    right
    constructor
    · simp [getResultsLoop]
    · simp [getResultsLoop]
  | cons e rest ih =>
    intro day pd cp
    obtain ⟨dt, c⟩ := e
    simp only [getResultsLoop]
    by_cases h1 : dt < bd
    · rw [if_pos h1]
      rcases ih day (c - P) c with h | ⟨hd, hs⟩
      · left; exact h
      · right
        have hf : decide (bd ≤ dt) = false := decide_eq_false (not_le.mpr h1)
        constructor
        · rw [hd]
          simp [List.filter_cons, hf]
        · rw [hs]
          cases rest with
          | nil => simp
          | cons e2 r2 =>
            obtain ⟨x, hx⟩ := getLast?_cons_isSome e2 r2
            simp [hx]
    · rw [if_neg h1]
      by_cases h2 : MIN_HOLD_DAYS ≤ day ∧ (c ≤ fl ∨ tg ≤ c)
      · rw [if_pos h2]
        left
        exact h2.1
      · rw [if_neg h2]
        rcases ih (day + 1) (c - P) c with h | ⟨hd, hs⟩
        · left; exact h
        · right
          have ht : decide (bd ≤ dt) = true := decide_eq_true (not_lt.mp h1)
          constructor
          · rw [hd]
            simp [List.filter_cons, ht]
            omega
          · rw [hs]
            cases rest with
            | nil => simp
            | cons e2 r2 =>
              obtain ⟨x, hx⟩ := getLast?_cons_isSome e2 r2
              simp [hx]

/-- Refinement of the scan against the spec-side exit search: when the search
over the days at or after the buy date finds a first exit, the source scan
returns exactly that day count and close price, with the gain-loss fraction
computed from them. -/
lemma getResultsLoop_firstExit (bd : Int) (P fl tg : ℚ) :
    ∀ (l : Quotes) (day : Nat) (pd cp : ℚ) (j : Nat) (C : ℚ),
      specFirstExit fl tg day (l.filter (fun e => decide (bd ≤ e.1))) = some (j, C) →
      getResultsLoop bd P fl tg l day pd cp =
        ⟨(C - P) / (if P = 0 then 1 else P), j, P, C⟩ := by
  intro l
  induction l with
  | nil =>
    intro day pd cp j C h
    simp [specFirstExit] at h
  | cons e rest ih =>
    intro day pd cp j C h
    obtain ⟨dt, c⟩ := e
    by_cases h1 : dt < bd
    · have hf : decide (bd ≤ dt) = false := decide_eq_false (not_le.mpr h1)
      rw [List.filter_cons, hf] at h
      simp only [getResultsLoop]
      rw [if_pos h1]
      exact ih _ _ _ _ _ (by simpa using h)
    · have ht : decide (bd ≤ dt) = true := decide_eq_true (not_lt.mp h1)
      rw [List.filter_cons, ht] at h
      simp only [if_true, cond_true, ite_true] at h
      simp only [specFirstExit] at h
      simp only [getResultsLoop]
      rw [if_neg h1]
      by_cases h2 : MIN_HOLD_DAYS ≤ day ∧ (c ≤ fl ∨ tg ≤ c)
      · rw [if_pos h2] at h
        rw [if_pos h2]
        injection h with h3
        injection h3 with hj hc
        rw [hj, hc]
      · rw [if_neg h2] at h
        rw [if_neg h2]
        exact ih _ _ _ _ _ h

/-- On dates drawn from the series itself, the tally loop never raises: every
simulated date is a key of the dict, so _get_results never hits a KeyError. -/
lemma analyzeLoop_ok (q : Quotes) (sd : Option Int) (now : Int) :
    ∀ (l : Quotes), (∀ e, e ∈ l → e ∈ q) → ∀ st, ∃ st2,
      analyzeLoop q sd now l st = .ok st2 := by
  intro l
  induction l with
  | nil => intro _ st; exact ⟨st, rfl⟩
  | cons e rest ih =>
    intro hsub st
    obtain ⟨dt, c⟩ := e
    have hmem : (dt, c) ∈ q := hsub _ (List.mem_cons_self _ _)
    have hsub2 : ∀ e, e ∈ rest → e ∈ q := fun e he => hsub _ (List.mem_cons_of_mem _ he)
    obtain ⟨v, hv⟩ := qlookup_of_mem hmem
    simp only [analyzeLoop]
    by_cases hb : startSkip sd dt = true
    · rw [if_pos hb]; exact ih hsub2 st
    · rw [if_neg hb]
      by_cases h2 : now ≤ dt + (MIN_HOLD_DAYS : Int)
      · rw [if_pos h2]; exact ih hsub2 st
      · rw [if_neg h2]
        have hg : getResults dt q = some (getResultsLoop dt v
            (v * (1 - LOSS_PERCENT_FLOOR)) (v * (1 + GAIN_PERCENT_TARGET)) q 0 0 0) := by
          simp [getResults, hv]
        rw [hg]
        by_cases h3 : (getResultsLoop dt v
            (v * (1 - LOSS_PERCENT_FLOOR)) (v * (1 + GAIN_PERCENT_TARGET)) q 0 0 0).gl ≠ 0
        · simp only [if_pos h3]; exact ih hsub2 _
        · simp only [if_neg h3]; exact ih hsub2 _

/-- The tally computation of _analyze always completes. -/
lemma analyzeTallies_ok (q : Quotes) (sd : Option Int) (now : Int) :
    ∃ st, analyzeTallies q sd now = .ok st :=
  analyzeLoop_ok q sd now q (fun _ h => h) ⟨0, 0, []⟩

/-- Whenever the fetched series is analyzed without an escaping exception,
the value _analyze returns is None. -/
lemma analyzeSym_eq_none (q : Quotes) (sd : Option Int) (now : Int) :
    analyzeSym q sd now = .ok none := by
  obtain ⟨st, hst⟩ := analyzeTallies_ok q sd now
  simp [analyzeSym, hst]

/-- The dates recorded by the tally loop are exactly the dates of the visited
list that pass the eligibility filter, in visit order. -/
lemma analyzeLoop_keys (q : Quotes) (sd : Option Int) (now : Int) :
    ∀ (l : Quotes) (st st2 : TallyState),
      analyzeLoop q sd now l st = .ok st2 →
      st2.resultsByDate.map Prod.fst =
        st.resultsByDate.map Prod.fst ++ (l.map Prod.fst).filter (specEligible sd now) := by
  intro l
  induction l with
  | nil =>
    intro st st2 h
    simp only [analyzeLoop] at h
    injection h with h1
    rw [← h1]
    simp
  | cons e rest ih =>
    intro st st2 h
    obtain ⟨dt, c⟩ := e
    simp only [analyzeLoop] at h
    by_cases hb : startSkip sd dt = true
    · have helig : specEligible sd now dt = false := by
        cases sd with
        | none => simp [startSkip] at hb
        | some s =>
          simp only [startSkip, decide_eq_true_eq] at hb
          simp [specEligible, not_le.mpr hb]
      rw [if_pos hb] at h
      rw [ih _ _ h]
      simp [List.filter_cons, helig]
    · rw [if_neg hb] at h
      by_cases h2 : now ≤ dt + (MIN_HOLD_DAYS : Int)
      · have helig : specEligible sd now dt = false := by
          simp [specEligible, not_lt.mpr h2]
        rw [if_pos h2] at h
        rw [ih _ _ h]
        simp [List.filter_cons, helig]
      · have helig : specEligible sd now dt = true := by
          have hc2 : decide (dt + (MIN_HOLD_DAYS : Int) < now) = true :=
            decide_eq_true (not_le.mp h2)
          cases sd with
          | none => simp [specEligible, hc2]
          | some s =>
            have hc1 : decide (s ≤ dt) = true := by
              simp only [startSkip, decide_eq_true_eq] at hb ⊢
              omega
            simp [specEligible, hc1, hc2]
        rw [if_neg h2] at h
        cases hg : getResults dt q with
        | none =>
          rw [hg] at h
          dsimp only at h
          exact Except.noConfusion h
        | some r =>
          rw [hg] at h
          dsimp only at h
          by_cases h3 : r.gl ≠ 0
          · rw [if_pos h3] at h
            rw [ih _ _ h]
            simp [List.filter_cons, helig]
          · rw [if_neg h3] at h
            rw [ih _ _ h]
            simp [List.filter_cons, helig]

/-- The clock value reaches the tally loop only through the maturity test of
each visited date: two clock values that classify every visited date alike
produce identical runs. -/
lemma analyzeLoop_clock (q : Quotes) (sd : Option Int) (now1 now2 : Int) :
    ∀ (l : Quotes),
      (∀ e, e ∈ l → ((now1 ≤ e.1 + (MIN_HOLD_DAYS : Int)) ↔
        (now2 ≤ e.1 + (MIN_HOLD_DAYS : Int)))) →
      ∀ st, analyzeLoop q sd now1 l st = analyzeLoop q sd now2 l st := by
  intro l
  induction l with
  | nil => intro _ st; rfl
  | cons e rest ih =>
    intro hiff st
    obtain ⟨dt, c⟩ := e
    have hiffd := hiff _ (List.mem_cons_self _ _)
    have hrest : ∀ e, e ∈ rest → ((now1 ≤ e.1 + (MIN_HOLD_DAYS : Int)) ↔
        (now2 ≤ e.1 + (MIN_HOLD_DAYS : Int))) :=
      fun e he => hiff _ (List.mem_cons_of_mem _ he)
    simp only [analyzeLoop]
    by_cases hb : startSkip sd dt = true
    · rw [if_pos hb, if_pos hb]; exact ih hrest st
    · rw [if_neg hb, if_neg hb]
      by_cases h2 : now1 ≤ dt + (MIN_HOLD_DAYS : Int)
      · rw [if_pos h2, if_pos (hiffd.mp h2)]; exact ih hrest st
      · rw [if_neg h2, if_neg (fun hx => h2 (hiffd.mpr hx))]
        cases hg : getResults dt q with
        | none => rfl
        | some r =>
          dsimp only
          by_cases h3 : r.gl ≠ 0
          · rw [if_pos h3, if_pos h3]; exact ih hrest _
          · rw [if_neg h3, if_neg h3]; exact ih hrest _

/-! Claim theorems. -/

/-- C1: the claim says the per-symbol analysis returns a SymbolAnalysis record
with the symbol, total_wins, total_losses and ordered periods for every
successfully fetched series.  The code does not: its result loop falls off the
end of _analyze, so for every series, start date and clock value the analysis
completes with the value None instead of any SymbolAnalysis record. -/
theorem c1_per_symbol_analysis_returns_none :
    ∀ (q : Quotes) (startDate : Option Int) (now : Int),
      analyzeSym q startDate now = Except.ok (none : Option SymbolAnalysis) :=
  fun q sd now => analyzeSym_eq_none q sd now

/-- C2: the claim says a strictly negative gain-loss increments the loss tally
and an exactly zero one increments neither tally.  The code classifies by the
truthiness of the gain-loss value: on the falling series, whose single
eligible trade has gain-loss -1/10, the win tally is incremented; on the
constant series, whose single eligible trade has gain-loss 0, the loss tally
is incremented. -/
theorem c2_truthiness_classification :
    analyzeTallies cqFall none 8 = Except.ok ⟨1, 0, [(0, ⟨"w", 8⟩)]⟩ ∧
      analyzeTallies cqConst none 8 = Except.ok ⟨0, 1, [(0, ⟨"l", 10⟩)]⟩ :=
  ⟨by with_unfolding_all rfl, by with_unfolding_all rfl⟩

/-- C3, counterexample: on a batch of three symbols in which the fetch of B
fails, the batch call does not return a mapping holding the two healthy
symbols plus an error slot for B: the fetch exception propagates out of the
batch call and no mapping is returned at all. -/
theorem c3_failure_propagates_cex :
    analyzeBatch ["B", "A", "C"] cfetch none 8 =
      Except.error (BatchErr.raised "HTTP 500") := by
  with_unfolding_all rfl

/-- Shape of one future outcome given that _analyze always returns None. -/
lemma futureResult_eq (fetch : String → Except String Quotes)
    (sd : Option Int) (now : Int) (sym : String) :
    futureResult fetch sd now sym =
      match fetch sym with
      | .error e => .error (.raised e)
      | .ok _ => .ok none := by
  unfold futureResult
  cases fetch sym with
  | error e => rfl
  | ok q => simp [analyzeSym_eq_none]

/-- C3, amended: a per-symbol failure during batch analysis is not captured in
that symbol's slot; it propagates out of the batch call and the mapping is
discarded.  Indeed every nonempty batch call raises: either a per-symbol
exception is re-raised by future.result, or the subscription of the None
returned by _analyze raises a TypeError. -/
theorem c3_batch_always_raises (symbols : List String)
    (fetch : String → Except String Quotes) (startDate : Option Int) (now : Int)
    (hne : symbols ≠ []) :
    ∃ e, analyzeBatch symbols fetch startDate now = Except.error e := by
  cases symbols with
  | nil => exact absurd rfl hne
  | cons s rest =>
    unfold analyzeBatch
    have hmin : ¬ (min (s :: rest).length MAX_WORKERS = 0) := by
      simp [MAX_WORKERS, Nat.min_eq_zero_iff]
    rw [if_neg hmin]
    cases hf : fetch s with
    | error e =>
      refine ⟨.raised e, ?_⟩
      simp [batchCollect, futureResult_eq, hf]
    | ok qq =>
      refine ⟨.typeError, ?_⟩
      simp [batchCollect, futureResult_eq, hf]

/-- Witness for the amended C3 at a concrete nonempty batch. -/
theorem c3_batch_always_raises_witness :
    (["B"] : List String) ≠ [] ∧
      ∃ e, analyzeBatch ["B"] cfetch none 8 = Except.error e :=
  ⟨by simp, c3_batch_always_raises ["B"] cfetch none 8 (by simp)⟩

/-- C4: for every series and buy date present in it, the simulated trade
holds either at least MIN_HOLD_DAYS days, or exactly the number of series days
from the buy date to the end of the series; in the exhaustion case the sell
price is the last close of the series and the gain-loss fraction is computed
against it, with any sign possible. -/
theorem c4_hold_days_invariant (q : Quotes) (d : Int) (P : ℚ) (r : TradeResults)
    (_hs : SortedQ q) (hl : qlookup d q = some P) (hr : getResults d q = some r) :
    MIN_HOLD_DAYS ≤ r.days ∨
      (r.days = (q.filter (fun e => decide (d ≤ e.1))).length ∧
        r.sellPrice = lastClose q ∧
        r.gl = (r.sellPrice - P) / (if P = 0 then 1 else P)) := by
  have hq : q ≠ [] := ne_nil_of_qlookup hl
  have hr2 : r = getResultsLoop d P (P * (1 - LOSS_PERCENT_FLOOR))
      (P * (1 + GAIN_PERCENT_TARGET)) q 0 0 0 := by
    unfold getResults at hr
    rw [hl] at hr
    dsimp only at hr
    exact (Option.some.inj hr).symm
  subst hr2
  rcases getResultsLoop_days d P (P * (1 - LOSS_PERCENT_FLOOR))
      (P * (1 + GAIN_PERCENT_TARGET)) q 0 0 0 with h | ⟨hd, hsell⟩
  · left; exact h
  · right
    refine ⟨by rw [hd]; simp, ?_,
      getResultsLoop_gl d P (P * (1 - LOSS_PERCENT_FLOOR))
        (P * (1 + GAIN_PERCENT_TARGET)) q 0 0 0 hq⟩
    rw [hsell]
    cases hlast : q.getLast? with
    | none => simp [lastClose, hlast]
    | some x => simp [lastClose, hlast]

/-- Witness for C4 on the constant ten-day series: the trade exhausts the
series after 10 days. -/
theorem c4_hold_days_invariant_witness :
    SortedQ cqConst ∧ qlookup 0 cqConst = some 100 ∧
      getResults 0 cqConst = some ⟨0, 10, 100, 100⟩ ∧
      (MIN_HOLD_DAYS ≤ (⟨0, 10, 100, 100⟩ : TradeResults).days ∨
        ((⟨0, 10, 100, 100⟩ : TradeResults).days =
            (cqConst.filter (fun e => decide ((0 : Int) ≤ e.1))).length ∧
          (⟨0, 10, 100, 100⟩ : TradeResults).sellPrice = lastClose cqConst ∧
          (⟨0, 10, 100, 100⟩ : TradeResults).gl =
            ((⟨0, 10, 100, 100⟩ : TradeResults).sellPrice - 100) /
              (if (100 : ℚ) = 0 then 1 else 100))) :=
  ⟨by with_unfolding_all rfl, by with_unfolding_all rfl, by with_unfolding_all rfl,
    c4_hold_days_invariant cqConst 0 100 ⟨0, 10, 100, 100⟩
      (by with_unfolding_all rfl) (by with_unfolding_all rfl)
      (by with_unfolding_all rfl)⟩

/-- C5: with a nonzero buy price, when the spec-side search over the days at
or after the buy date finds a first day whose counter has reached the minimum
hold and whose close crosses a threshold, the simulator returns exactly that
day count and close, with gain-loss (C - P) / P. -/
theorem c5_first_exit (q : Quotes) (d : Int) (P : ℚ) (j : Nat) (C : ℚ)
    (_hs : SortedQ q) (hl : qlookup d q = some P) (hP : P ≠ 0)
    (hhit : specFirstExit (P * (1 - LOSS_PERCENT_FLOOR))
      (P * (1 + GAIN_PERCENT_TARGET)) 0 (postSeries d q) = some (j, C)) :
    getResults d q = some ⟨(C - P) / P, j, P, C⟩ := by
  unfold getResults
  rw [hl]
  dsimp only
  have hx := getResultsLoop_firstExit d P (P * (1 - LOSS_PERCENT_FLOOR))
    (P * (1 + GAIN_PERCENT_TARGET)) q 0 0 0 j C (by simpa [postSeries] using hhit)
  rw [hx, if_neg hP]

/-- Witness for C5 on the rising series: exit at day 8 with close 116. -/
theorem c5_first_exit_witness :
    SortedQ cqRise ∧ qlookup 0 cqRise = some 100 ∧ (100 : ℚ) ≠ 0 ∧
      specFirstExit ((100 : ℚ) * (1 - LOSS_PERCENT_FLOOR))
        ((100 : ℚ) * (1 + GAIN_PERCENT_TARGET)) 0 (postSeries 0 cqRise) =
        some (8, 116) ∧
      getResults 0 cqRise = some ⟨((116 : ℚ) - 100) / 100, 8, 100, 116⟩ :=
  ⟨by with_unfolding_all rfl, by with_unfolding_all rfl, by norm_num,
    by with_unfolding_all rfl,
    c5_first_exit cqRise 0 100 8 116 (by with_unfolding_all rfl)
      (by with_unfolding_all rfl) (by norm_num) (by with_unfolding_all rfl)⟩

/-- C6: the dates the tally loop simulates and records are exactly the series
dates passing the eligibility filter of the claim, in ascending order: not
before startDate when supplied, and with buyDate + MIN_HOLD_DAYS strictly
before now. -/
theorem c6_eligibility_filter (q : Quotes) (startDate : Option Int) (now : Int)
    (st : TallyState) (_hs : SortedQ q)
    (h : analyzeTallies q startDate now = Except.ok st) :
    st.resultsByDate.map Prod.fst =
      (q.map Prod.fst).filter (specEligible startDate now) := by
  unfold analyzeTallies at h
  have hx := analyzeLoop_keys q startDate now q ⟨0, 0, []⟩ st h
  simpa using hx

/-- Witness for C6 on the falling series with clock value 8: only date 0 is
eligible. -/
theorem c6_eligibility_filter_witness :
    SortedQ cqFall ∧
      analyzeTallies cqFall none 8 = Except.ok ⟨1, 0, [(0, ⟨"w", 8⟩)]⟩ ∧
      (⟨1, 0, [(0, ⟨"w", 8⟩)]⟩ : TallyState).resultsByDate.map Prod.fst =
        (cqFall.map Prod.fst).filter (specEligible none 8) :=
  ⟨by with_unfolding_all rfl, by with_unfolding_all rfl,
    c6_eligibility_filter cqFall none 8 ⟨1, 0, [(0, ⟨"w", 8⟩)]⟩
      (by with_unfolding_all rfl) (by with_unfolding_all rfl)⟩

/-- C7: for every series and buy date present in it, the simulator records the
buy-date close as the buy price and computes the gain-loss fraction with
denominator 1 when that price is zero and with the price itself otherwise. -/
theorem c7_defensive_denominator (q : Quotes) (d : Int) (P : ℚ) (r : TradeResults)
    (hl : qlookup d q = some P) (hr : getResults d q = some r) :
    r.buyPrice = P ∧ r.gl = (r.sellPrice - P) / (if P = 0 then 1 else P) := by
  have hq : q ≠ [] := ne_nil_of_qlookup hl
  have hr2 : r = getResultsLoop d P (P * (1 - LOSS_PERCENT_FLOOR))
      (P * (1 + GAIN_PERCENT_TARGET)) q 0 0 0 := by
    unfold getResults at hr
    rw [hl] at hr
    dsimp only at hr
    exact (Option.some.inj hr).symm
  subst hr2
  exact ⟨getResultsLoop_buyPrice d P (P * (1 - LOSS_PERCENT_FLOOR))
      (P * (1 + GAIN_PERCENT_TARGET)) q 0 0 0,
    getResultsLoop_gl d P (P * (1 - LOSS_PERCENT_FLOOR))
      (P * (1 + GAIN_PERCENT_TARGET)) q 0 0 0 hq⟩

/-- Witness for C7 on the zero-price series: the division is performed with
denominator 1. -/
theorem c7_defensive_denominator_witness :
    qlookup 0 cqZero = some 0 ∧ getResults 0 cqZero = some ⟨5, 2, 0, 5⟩ ∧
      ((⟨5, 2, 0, 5⟩ : TradeResults).buyPrice = 0 ∧
        (⟨5, 2, 0, 5⟩ : TradeResults).gl =
          ((⟨5, 2, 0, 5⟩ : TradeResults).sellPrice - 0) /
            (if (0 : ℚ) = 0 then 1 else 0)) :=
  ⟨by with_unfolding_all rfl, by with_unfolding_all rfl,
    c7_defensive_denominator cqZero 0 0 ⟨5, 2, 0, 5⟩
      (by with_unfolding_all rfl) (by with_unfolding_all rfl)⟩

/-- C8, counterexample: the analysis consults the ambient clock internally,
and its tallies depend on it: on the falling series with identical series and
parameters, clock values 8 and 9 produce different tallies, so the analysis is
not a function of the series and the explicitly passed parameters alone. -/
theorem c8_clock_dependence_cex :
    analyzeTallies cqFall none 8 ≠ analyzeTallies cqFall none 9 := by
  have h1 : analyzeTallies cqFall none 8 = Except.ok ⟨1, 0, [(0, ⟨"w", 8⟩)]⟩ := by
    with_unfolding_all rfl
  have h2 : analyzeTallies cqFall none 9 =
      Except.ok ⟨2, 0, [(0, ⟨"w", 8⟩), (1, ⟨"w", 7⟩)]⟩ := by
    with_unfolding_all rfl
  rw [h1, h2]
  intro h
  exact absurd (Except.ok.inj h) (by decide)

/-- C8, amended: the analysis is deterministic once the internally consulted
clock is accounted for: two clock values that give every series date the same
maturity classification produce identical tallies; in particular repeating a
call with an unchanged clock reading repeats the output exactly. -/
theorem c8_determinism_given_clock (q : Quotes) (startDate : Option Int)
    (now1 now2 : Int)
    (h : ∀ e, e ∈ q → ((now1 ≤ e.1 + (MIN_HOLD_DAYS : Int)) ↔
      (now2 ≤ e.1 + (MIN_HOLD_DAYS : Int)))) :
    analyzeTallies q startDate now1 = analyzeTallies q startDate now2 := by
  unfold analyzeTallies
  exact analyzeLoop_clock q startDate now1 now2 q h ⟨0, 0, []⟩

/-- Witness for the amended C8: clock values 20 and 30 classify every date of
the falling series alike, and the tallies agree. -/
theorem c8_determinism_given_clock_witness :
    (∀ e, e ∈ cqFall → (((20 : Int) ≤ e.1 + (MIN_HOLD_DAYS : Int)) ↔
      ((30 : Int) ≤ e.1 + (MIN_HOLD_DAYS : Int)))) ∧
      analyzeTallies cqFall none 20 = analyzeTallies cqFall none 30 :=
  ⟨by decide, c8_determinism_given_clock cqFall none 20 30 (by decide)⟩

/-- C9: on a response carrying no key containing "time series", such as an
API error payload with the single key Error Message, the key selection fails
with the unguarded possible_keys[0] IndexError, which is neither of the two
descriptive errors; and the descriptive ambiguity error fires exactly when
more than one key matches. -/
theorem c9_missing_key_unguarded :
    getQuotesKeySelection false ["Error Message"] = Except.error ApiErr.indexError ∧
      ApiErr.indexError ≠ ApiErr.ambiguousKey ∧
      ApiErr.indexError ≠ ApiErr.emptyResponse ∧
      (∀ keys : List String,
        getQuotesKeySelection false keys = Except.error ApiErr.ambiguousKey ↔
          1 < (possibleKeys keys).length) := by
  refine ⟨by with_unfolding_all rfl, by decide, by decide, ?_⟩
  intro keys
  constructor
  · intro h
    by_contra hn
    simp only [getQuotesKeySelection] at h
    rw [if_neg (by decide : ¬ (false = true)), if_neg hn] at h
    cases hpk : possibleKeys keys with
    | nil =>
      rw [hpk] at h
      dsimp only at h
      exact absurd (Except.error.inj h) (by decide)
    | cons k ks =>
      rw [hpk] at h
      dsimp only at h
      exact Except.noConfusion h
  · intro h
    simp only [getQuotesKeySelection]
    rw [if_neg (by decide : ¬ (false = true)), if_pos h]

/-- C10: for the empty symbol set the batch call constructs its worker pool
with max_workers = min(0, 4) = 0, which ThreadPoolExecutor rejects, so the
call raises instead of returning an empty mapping. -/
theorem c10_empty_batch_raises :
    ∀ (fetch : String → Except String Quotes) (startDate : Option Int) (now : Int),
      analyzeBatch [] fetch startDate now = Except.error BatchErr.invalidMaxWorkers := by
  intro fetch sd now
  with_unfolding_all rfl

end StockHarvester
